import Mathlib

/-!
Verification of the tl-scraper repository's natural-language specification
against its source.  Each section embeds one part of the source shallowly:
pure functions become Lean functions, the stateful job-pool loop becomes a
small-step transition relation, and fallible code returns `Option`.
-/

set_option autoImplicit false

namespace TlScraper

/-!
## Job pool (src/src/join_pool.rs)

`JobPool::run` is an event loop:

```
loop {
    if self.has_terminated() && tasks.is_empty() { break; }
    tokio::select! {
        item = self.next_job(), if tasks.len() < self.concurrency && !self.has_terminated() => {
            if let Some((Job(fut), permit)) = item? { ... tasks.spawn(...) }
            else { /* channel closed */ }
        },
        result = tasks.join_next(), if !tasks.is_empty() => {
            ... result??;
        }
    }
}
Ok(())
```

We model the loop as a transition system.  A `Job` carries its predetermined
completion result (jobs are opaque to the pool except for that result).
`PoolState.queue` is the unbounded mpsc channel's buffered contents,
`PoolState.tasks` the `JoinSet` of in-flight tasks, `PoolState.handles` the
number of live `JobHandle` clones (mpsc senders), and
`PoolState.hasTerminated` the `has_terminated` flag that `next_job` sets when
`rx.recv()` returns `None` (which happens exactly when every sender has been
dropped and the buffer is drained).

Besides the loop's own actions, the environment (the orchestrator and the
spawned jobs themselves, which own `JobHandle` clones) may clone a handle,
drop a handle, or send a job into the channel at any time; those are the
`handleClone`, `handleDrop` and `jobSpawn` transitions.
-/

/-- A unit of work, opaque except for its completion result
(`Job(BoxFuture<'static, Result<()>>)` in src/src/join_pool.rs). -/
structure Job where
  result : Except String Unit

/-- The observable state of a `JobPool` run: channel buffer, in-flight
`JoinSet`, live sender count, and the `has_terminated` flag. -/
structure PoolState where
  queue : List Job
  tasks : List Job
  handles : Nat
  hasTerminated : Bool

/-- One transition of the pool's event loop or of its environment, for a pool
built by `JobPool::new c`.  The `pull` and `close` constructors mirror the
first `select!` arm (guarded by `tasks.len() < concurrency && !has_terminated`),
`reapOk` mirrors the second arm for a successfully finished task, and the
remaining constructors are environment actions on `JobHandle` clones. -/
inductive PoolStep (c : Nat) : PoolState → PoolState → Prop
  | pull (s : PoolState) (j : Job) (rest : List Job) :
      s.hasTerminated = false → s.tasks.length < c → s.queue = j :: rest →
      PoolStep c s { s with queue := rest, tasks := s.tasks ++ [j] }
  | close (s : PoolState) :
      s.hasTerminated = false → s.tasks.length < c →
      s.handles = 0 → s.queue = [] →
      PoolStep c s { s with hasTerminated := true }
  | reapOk (s : PoolState) (l1 : List Job) (j : Job) (l2 : List Job) :
      s.tasks = l1 ++ j :: l2 → j.result = Except.ok () →
      PoolStep c s { s with tasks := l1 ++ l2 }
  | handleClone (s : PoolState) :
      0 < s.handles → PoolStep c s { s with handles := s.handles + 1 }
  | handleDrop (s : PoolState) :
      0 < s.handles → PoolStep c s { s with handles := s.handles - 1 }
  | jobSpawn (s : PoolState) (j : Job) :
      0 < s.handles → PoolStep c s { s with queue := s.queue ++ [j] }

/-- Reachability under pool/environment transitions. -/
def PoolReachable (c : Nat) : PoolState → PoolState → Prop :=
  Relation.ReflTransGen (PoolStep c)

/-- Outcome of `JobPool::run`. -/
inductive RunOutcome where
  | ok
  | err (e : String)

/-- `ReturnsFrom c s out sf` holds when, started in state `s`, the run loop can
return with outcome `out` leaving final state `sf`.  `done` is the
`break`-then-`Ok(())` path (taken exactly when `has_terminated && tasks.is_empty()`);
`step` is one more loop iteration or environment action; `reapErr` is the
`result??` path, which returns the first job error immediately, consuming
nothing further. -/
inductive ReturnsFrom (c : Nat) : PoolState → RunOutcome → PoolState → Prop
  | done (s : PoolState) :
      s.hasTerminated = true → s.tasks = [] →
      ReturnsFrom c s RunOutcome.ok s
  | step (s s' : PoolState) (out : RunOutcome) (sf : PoolState) :
      PoolStep c s s' → ReturnsFrom c s' out sf → ReturnsFrom c s out sf
  | reapErr (s : PoolState) (l1 : List Job) (j : Job) (l2 : List Job) (e : String) :
      s.tasks = l1 ++ j :: l2 → j.result = Except.error e →
      ReturnsFrom c s (RunOutcome.err e) { s with tasks := l1 ++ l2 }

/-- Once `has_terminated` is set, there are no live handles and the channel is
empty: `rx.recv()` only returns `None` in that situation, and no transition can
mint a handle from none. -/
def TermInv (s : PoolState) : Prop :=
  s.hasTerminated = true → s.handles = 0 ∧ s.queue = []

theorem poolStep_termInv {c : Nat} {s s' : PoolState}
    (h : PoolStep c s s') (hi : TermInv s) : TermInv s' := by
  cases h with
  | pull j rest h1 h2 h3 =>
    intro ht
    simp only at ht
    rw [h1] at ht
    cases ht
  | close h1 h2 h3 h4 =>
    intro _
    exact ⟨h3, h4⟩
  | reapOk l1 j l2 h1 h2 =>
    intro ht
    exact hi ht
  | handleClone h1 =>
    intro ht
    have := (hi ht).1
    omega
  | handleDrop h1 =>
    intro ht
    have := hi ht
    constructor
    · omega
    · exact this.2
  | jobSpawn j h1 =>
    intro ht
    have := (hi ht).1
    omega

theorem poolStep_tasks_bound {c : Nat} {s s' : PoolState}
    (h : PoolStep c s s') (hb : s.tasks.length ≤ c) : s'.tasks.length ≤ c := by
  cases h with
  | pull j rest h1 h2 h3 => simp; omega
  | close h1 h2 h3 h4 => exact hb
  | reapOk l1 j l2 h1 h2 =>
    simp only
    rw [h1] at hb
    simp at hb ⊢
    omega
  | handleClone h1 => exact hb
  | handleDrop h1 => exact hb
  | jobSpawn j h1 => exact hb

theorem returnsFrom_ok_drained {c : Nat} {s sf : PoolState} {out : RunOutcome}
    (h : ReturnsFrom c s out sf) (hi : TermInv s) (hok : out = RunOutcome.ok) :
    sf.hasTerminated = true ∧ sf.tasks = [] ∧ sf.handles = 0 ∧ sf.queue = [] := by
  induction h with
  | done s h1 h2 =>
    obtain ⟨h3, h4⟩ := hi h1
    exact ⟨h1, h2, h3, h4⟩
  | step s s' out sf hstep _ ih =>
    exact ih (poolStep_termInv hstep hi) hok
  | reapErr s l1 j l2 e h1 h2 =>
    cases hok

theorem returnsFrom_err_anatomy {c : Nat} {s sf : PoolState} {out : RunOutcome}
    (h : ReturnsFrom c s out sf) :
    ∀ e : String, out = RunOutcome.err e →
      ∃ (s' : PoolState) (l1 : List Job) (j : Job) (l2 : List Job),
        PoolReachable c s s' ∧
        s'.tasks = l1 ++ j :: l2 ∧
        j.result = Except.error e ∧
        sf = { s' with tasks := l1 ++ l2 } := by
  induction h with
  | done s h1 h2 =>
    intro e he
    cases he
  | step s s1 out sf hstep _ ih =>
    intro e he
    obtain ⟨s', l1, j, l2, hr, ht, hj, hsf⟩ := ih e he
    exact ⟨s', l1, j, l2, Relation.ReflTransGen.head hstep hr, ht, hj, hsf⟩
  | reapErr s l1 j l2 e h1 h2 =>
    intro e' he
    cases he
    exact ⟨s, l1, j, l2, Relation.ReflTransGen.refl, h1, h2, rfl⟩

/-- C1 (amended): for a pool with `concurrency ≥ 1` started before channel
closure, (a) whenever `run` returns `Ok` the final state has every handle
dropped, the channel drained and the in-flight set empty; conversely, from any
state where every handle has been dropped, the channel is drained and no task
is in flight, `run` can return `Ok`; and (b) when `run` returns an error, the
loop had reached a state whose in-flight set contained a job whose completion
result is exactly that error, and the final state is that state with only that
job reaped: the same queue and the other in-flight tasks untouched, so the
error return consumes no further work.  (Every reap before that point was a
successful one — `PoolStep.reapOk` is the only non-terminal reap.) -/
theorem jobPool_run_returns (c : Nat) (s : PoolState)
    (hc : 0 < c) (hs : s.hasTerminated = false) :
    (∀ sf : PoolState, ReturnsFrom c s RunOutcome.ok sf →
        sf.handles = 0 ∧ sf.queue = [] ∧ sf.tasks = []) ∧
    (s.handles = 0 → s.queue = [] → s.tasks = [] →
        ∃ sf : PoolState, ReturnsFrom c s RunOutcome.ok sf) ∧
    (∀ (e : String) (sf : PoolState), ReturnsFrom c s (RunOutcome.err e) sf →
        ∃ (s' : PoolState) (l1 : List Job) (j : Job) (l2 : List Job),
          PoolReachable c s s' ∧
          s'.tasks = l1 ++ j :: l2 ∧
          j.result = Except.error e ∧
          sf = { s' with tasks := l1 ++ l2 }) := by
  refine ⟨?_, ?_, ?_⟩
  · intro sf h
    have hi : TermInv s := by
      intro ht
      rw [hs] at ht
      cases ht
    obtain ⟨_, h2, h3, h4⟩ := returnsFrom_ok_drained h hi rfl
    exact ⟨h3, h4, h2⟩
  · intro hh hq ht
    refine ⟨{ s with hasTerminated := true }, ?_⟩
    refine ReturnsFrom.step s _ RunOutcome.ok _ (PoolStep.close s hs ?_ hh hq) ?_
    · rw [ht]; simpa using hc
    · exact ReturnsFrom.done _ rfl ht
  · intro e sf h
    exact returnsFrom_err_anatomy h e rfl

/-- Witness for `jobPool_run_returns` at a concrete pool state. -/
theorem jobPool_run_returns_witness :
    (∀ sf : PoolState, ReturnsFrom 1 ⟨[], [], 0, false⟩ RunOutcome.ok sf →
        sf.handles = 0 ∧ sf.queue = [] ∧ sf.tasks = []) ∧
    ((⟨[], [], 0, false⟩ : PoolState).handles = 0 →
     (⟨[], [], 0, false⟩ : PoolState).queue = [] →
     (⟨[], [], 0, false⟩ : PoolState).tasks = [] →
        ∃ sf : PoolState, ReturnsFrom 1 ⟨[], [], 0, false⟩ RunOutcome.ok sf) ∧
    (∀ (e : String) (sf : PoolState),
        ReturnsFrom 1 ⟨[], [], 0, false⟩ (RunOutcome.err e) sf →
        ∃ (s' : PoolState) (l1 : List Job) (j : Job) (l2 : List Job),
          PoolReachable 1 ⟨[], [], 0, false⟩ s' ∧
          s'.tasks = l1 ++ j :: l2 ∧
          j.result = Except.error e ∧
          sf = { s' with tasks := l1 ++ l2 }) :=
  jobPool_run_returns 1 ⟨[], [], 0, false⟩ (by decide) rfl

/-- C1 counterexample: with `concurrency = 0`, even after every handle has
been dropped with nothing queued and nothing in flight, `run` can never return
`Ok` (both `select!` arms are disabled, so the claim's case (a) fails for
`JobPool::new(0)`). -/
theorem jobPool_zero_concurrency_no_return :
    ¬ ∃ sf : PoolState, ReturnsFrom 0 ⟨[], [], 0, false⟩ RunOutcome.ok sf := by
  rintro ⟨sf, h⟩
  cases h with
  | done _ h1 h2 => cases h1
  | step _ s' out sf hstep hrest =>
    cases hstep with
    | pull j rest h1 h2 h3 => cases h3
    | close h1 h2 h3 h4 => simp at h2
    | reapOk l1 j l2 h1 h2 => simp at h1
    | handleClone h1 => simp at h1
    | handleDrop h1 => simp at h1
    | jobSpawn j h1 => simp at h1

/-- C2: on every run of a pool built with `JobPool::new c`, every reachable
state keeps at most `c` jobs in flight, and any transition that adds a job to
the in-flight set starts from a state with strictly fewer than `c` jobs in
flight (the first `select!` arm's `tasks.len() < self.concurrency` guard). -/
theorem jobPool_tasks_bounded (c : Nat) (s0 s : PoolState)
    (h0 : s0.tasks = []) (h : PoolReachable c s0 s) :
    s.tasks.length ≤ c ∧
    (∀ s2 : PoolState, PoolStep c s s2 →
        s.tasks.length < s2.tasks.length → s.tasks.length < c) := by
  constructor
  · induction h with
    | refl => rw [h0]; simp
    | tail _ hstep ih => exact poolStep_tasks_bound hstep ih
  · intro s2 hstep hgrow
    cases hstep with
    | pull j rest h1 h2 h3 => exact h2
    | close h1 h2 h3 h4 => simp at hgrow
    | reapOk l1 j l2 h1 h2 =>
      rw [h1] at hgrow
      simp at hgrow
    | handleClone h1 => simp at hgrow
    | handleDrop h1 => simp at hgrow
    | jobSpawn j h1 => simp at hgrow

/-- Witness for `jobPool_tasks_bounded` at a concrete pool state. -/
theorem jobPool_tasks_bounded_witness :
    (⟨[], [], 1, false⟩ : PoolState).tasks.length ≤ 2 ∧
    (∀ s2 : PoolState, PoolStep 2 ⟨[], [], 1, false⟩ s2 →
        (⟨[], [], 1, false⟩ : PoolState).tasks.length < s2.tasks.length →
        (⟨[], [], 1, false⟩ : PoolState).tasks.length < 2) :=
  jobPool_tasks_bounded 2 ⟨[], [], 1, false⟩ ⟨[], [], 1, false⟩ rfl
    Relation.ReflTransGen.refl

/-- The exit test at the top of the run loop. -/
def loopExits (s : PoolState) : Prop :=
  s.hasTerminated = true ∧ s.tasks = []

/-- Guard of the first `select!` arm
(`tasks.len() < self.concurrency && !self.has_terminated()`). -/
def pullArmEnabled (c : Nat) (s : PoolState) : Prop :=
  s.tasks.length < c ∧ s.hasTerminated = false

/-- Guard of the second `select!` arm (`!tasks.is_empty()`). -/
def reapArmEnabled (s : PoolState) : Prop :=
  s.tasks ≠ []

/-- `tokio::select!` panics when the loop does not exit yet every arm's guard
is false. -/
def selectPanics (c : Nat) (s : PoolState) : Prop :=
  ¬ loopExits s ∧ ¬ pullArmEnabled c s ∧ ¬ reapArmEnabled s

/-- C10: the pool's contract needs `concurrency ≥ 1`.  With
`JobPool::new(0)`, the freshly created state (channel open, one handle, no
in-flight task) already has both `select!` arms disabled without exiting the
loop, so `run` panics; for every `concurrency ≥ 1` no state whatsoever can
panic this way. -/
theorem jobPool_zero_concurrency_panics :
    selectPanics 0 ⟨[], [], 1, false⟩ ∧
    ∀ (c : Nat) (s : PoolState), 0 < c → ¬ selectPanics c s := by
  constructor
  · refine ⟨?_, ?_, ?_⟩
    · intro hex
      cases hex.1
    · intro hp
      simpa using hp.1
    · intro hr
      exact hr rfl
  · rintro c s hc ⟨hex, hpull, hreap⟩
    have htasks : s.tasks = [] := by
      by_cases h : s.tasks = []
      · exact h
      · exact absurd h hreap
    have hterm : s.hasTerminated = false := by
      cases hb : s.hasTerminated with
      | false => rfl
      | true => exact absurd ⟨hb, htasks⟩ hex
    exact hpull ⟨by rw [htasks]; simpa using hc, hterm⟩

/-!
## Calendar dates and month partitioning (src/src/sync.rs `months`)

`months` works on `chrono::NaiveDate`.  We embed the proleptic Gregorian
calendar as year/month/day triples ordered lexicographically, which is the
order `NaiveDate`'s `Ord` implements, together with the calendar operations
the source uses: `with_day(1)`, `pred_opt`, `std::cmp::min`, and the stream of
month-first days that `iter_days().filter(|d| d.day() == 1)` produces.
-/

/-- A calendar date (`chrono::NaiveDate`). -/
@[ext]
structure Date where
  year : Nat
  month : Nat
  day : Nat
deriving DecidableEq

/-- Gregorian leap-year rule. -/
def isLeapYear (y : Nat) : Bool :=
  y % 4 == 0 && (y % 100 != 0 || y % 400 == 0)

/-- Number of days in a month of a given year. -/
def daysInMonth (y m : Nat) : Nat :=
  if m = 2 then (if isLeapYear y then 29 else 28)
  else if m = 4 ∨ m = 6 ∨ m = 9 ∨ m = 11 then 30
  else 31

/-- A triple denotes a real calendar date. -/
def Date.Valid (d : Date) : Prop :=
  1 ≤ d.month ∧ d.month ≤ 12 ∧ 1 ≤ d.day ∧ d.day ≤ daysInMonth d.year d.month

instance (d : Date) : Decidable d.Valid := by
  unfold Date.Valid
  infer_instance

/-- Calendar order on dates (the `Ord` of `chrono::NaiveDate`): lexicographic
on (year, month, day). -/
def dateLe (a b : Date) : Prop :=
  a.year < b.year ∨
    (a.year = b.year ∧ (a.month < b.month ∨ (a.month = b.month ∧ a.day ≤ b.day)))

instance (a b : Date) : Decidable (dateLe a b) := by
  unfold dateLe
  infer_instance

/-- `std::cmp::min` on `NaiveDate`. -/
def dateMin (a b : Date) : Date :=
  if dateLe a b then a else b

/-- `NaiveDate::pred_opt().unwrap()`: the previous calendar day. -/
def datePred (d : Date) : Date :=
  if 1 < d.day then ⟨d.year, d.month, d.day - 1⟩
  else if 1 < d.month then ⟨d.year, d.month - 1, daysInMonth d.year (d.month - 1)⟩
  else ⟨d.year - 1, 12, 31⟩

/-- `period.start().with_day(1)`: day forced to 1. -/
def firstOfMonth (d : Date) : Date :=
  ⟨d.year, d.month, 1⟩

/-- Successive elements of `month_start_date.iter_days().filter(|d| d.day() == 1)`:
from one month-first day, the next month-first day. -/
def nextMonthFirst (d : Date) : Date :=
  if d.month = 12 then ⟨d.year + 1, 1, 1⟩ else ⟨d.year, d.month + 1, 1⟩

/-- Linear month index, used only as the fuel/termination measure for the
month-start stream. -/
def mIdx (d : Date) : Nat :=
  12 * d.year + d.month

/-- The `month_starts.take_while(d <= end).zip(month_ends)` pipeline of
`months`, unrolled: starting from month-first `cur`, while `cur <= stop` emit
the bucket `(cur, min(next_month_first.pred, stop))` and continue from the next
month-first day.  The fuel argument only bounds the stream length; `months`
supplies enough fuel that the `take_while` condition, not the fuel, ends the
list. -/
def monthsFromAux : Nat → Date → Date → List (Date × Date)
  | 0, _, _ => []
  | fuel + 1, cur, stop =>
    if dateLe cur stop then
      (cur, dateMin (datePred (nextMonthFirst cur)) stop) ::
        monthsFromAux fuel (nextMonthFirst cur) stop
    else []

/-- `months(period)` from src/src/sync.rs:310: the month buckets of the
inclusive date range `[pstart, pstop]`. -/
def months (pstart pstop : Date) : List (Date × Date) :=
  monthsFromAux (mIdx pstop + 1 - mIdx (firstOfMonth pstart)) (firstOfMonth pstart) pstop

/-- Membership of a date in an inclusive bucket. -/
def inBucket (d : Date) (b : Date × Date) : Bool :=
  decide (dateLe b.1 d) && decide (dateLe d b.2)

theorem dateLe_refl (a : Date) : dateLe a a := by
  unfold dateLe
  omega

theorem dateLe_trans {a b c : Date} (h1 : dateLe a b) (h2 : dateLe b c) :
    dateLe a c := by
  unfold dateLe at h1 h2 ⊢
  omega

theorem dateLe_total (a b : Date) : dateLe a b ∨ dateLe b a := by
  unfold dateLe
  omega

theorem daysInMonth_pos (y m : Nat) : 1 ≤ daysInMonth y m := by
  unfold daysInMonth
  split <;> [split <;> omega; split <;> omega]

theorem daysInMonth_le_31 (y m : Nat) : daysInMonth y m ≤ 31 := by
  unfold daysInMonth
  split <;> [split <;> omega; split <;> omega]

theorem dateMin_le_right (a b : Date) : dateLe (dateMin a b) b := by
  unfold dateMin
  split
  · assumption
  · exact dateLe_refl b

theorem dateMin_le_left (a b : Date) : dateLe (dateMin a b) a := by
  unfold dateMin
  split
  · exact dateLe_refl a
  · rcases dateLe_total a b with h | h
    · exact absurd h (by assumption)
    · exact h

theorem dateLe_dateMin {d a b : Date} (h1 : dateLe d a) (h2 : dateLe d b) :
    dateLe d (dateMin a b) := by
  unfold dateMin
  split
  · exact h1
  · exact h2

theorem dateMin_eq_left {a b : Date} (h : dateLe a b) : dateMin a b = a := by
  unfold dateMin
  rw [if_pos h]

theorem mIdx_nextMonthFirst (d : Date) : mIdx (nextMonthFirst d) = mIdx d + 1 := by
  unfold nextMonthFirst mIdx
  split
  · simp only
    omega
  · simp only
    omega

theorem mIdx_mono {a b : Date} (h : dateLe a b) (ha : a.month ≤ 12)
    (hb : 1 ≤ b.month) : mIdx a ≤ mIdx b := by
  unfold dateLe at h
  unfold mIdx
  omega

theorem dateLe_nextMonthFirst (d : Date) : dateLe d (nextMonthFirst d) := by
  unfold nextMonthFirst
  split
  · exact Or.inl (show d.year < d.year + 1 by omega)
  · exact Or.inr ⟨rfl, Or.inl (show d.month < d.month + 1 by omega)⟩

theorem nextMonthFirst_valid {d : Date} (hd : d.Valid) :
    (nextMonthFirst d).Valid := by
  obtain ⟨h1, h2, h3, h4⟩ := hd
  unfold nextMonthFirst
  split
  · exact ⟨le_refl 1, show (1 : Nat) ≤ 12 by omega, le_refl 1,
      show (1 : Nat) ≤ daysInMonth (d.year + 1) 1 from daysInMonth_pos _ _⟩
  · refine ⟨show (1 : Nat) ≤ d.month + 1 by omega, ?_, le_refl 1,
      show (1 : Nat) ≤ daysInMonth d.year (d.month + 1) from daysInMonth_pos _ _⟩
    show d.month + 1 ≤ 12
    omega

theorem nextMonthFirst_month_le {d : Date} (hd : d.month ≤ 12) :
    (nextMonthFirst d).month ≤ 12 := by
  unfold nextMonthFirst
  split
  · show (1 : Nat) ≤ 12
    omega
  · show d.month + 1 ≤ 12
    omega

/-- Splitting a valid date around a month boundary: every valid date is either
at or after the month-first `nextMonthFirst cur`, or at or before the last day
of `cur`'s month (which is `datePred (nextMonthFirst cur)`). -/
theorem date_split_at_next {cur : Date} (hm : 1 ≤ cur.month) (hm2 : cur.month ≤ 12)
    (d : Date) (hd : d.Valid) :
    dateLe (nextMonthFirst cur) d ∨ dateLe d (datePred (nextMonthFirst cur)) := by
  obtain ⟨hd1, hd2, hd3, hd4⟩ := hd
  unfold nextMonthFirst
  by_cases h12 : cur.month = 12
  · rw [if_pos h12]
    have hpred : datePred ⟨cur.year + 1, 1, 1⟩ = ⟨cur.year, 12, 31⟩ := by
      unfold datePred
      norm_num
    rw [hpred]
    unfold dateLe
    simp only
    by_cases hy : cur.year + 1 ≤ d.year
    · left
      omega
    · right
      have h31 : d.day ≤ 31 := le_trans hd4 (daysInMonth_le_31 _ _)
      omega
  · rw [if_neg h12]
    have hpred : datePred ⟨cur.year, cur.month + 1, 1⟩ =
        ⟨cur.year, cur.month, daysInMonth cur.year cur.month⟩ := by
      unfold datePred
      simp only
      rw [if_neg (by omega), if_pos (by omega)]
      norm_num
    rw [hpred]
    unfold dateLe
    simp only
    by_cases hy : d.year = cur.year
    · by_cases hmle : cur.month + 1 ≤ d.month
      · left
        omega
      · right
        by_cases hmeq : d.month = cur.month
        · right
          constructor
          · omega
          · right
            refine ⟨hmeq, ?_⟩
            rw [hy, hmeq] at hd4
            exact hd4
        · omega
    · omega

/-- The last day of `cur`'s month lies strictly before the next month-first. -/
theorem not_nextMonthFirst_le_pred {cur : Date} (hm : 1 ≤ cur.month) :
    ¬ dateLe (nextMonthFirst cur) (datePred (nextMonthFirst cur)) := by
  unfold nextMonthFirst
  by_cases h12 : cur.month = 12
  · rw [if_pos h12]
    have hpred : datePred ⟨cur.year + 1, 1, 1⟩ = ⟨cur.year, 12, 31⟩ := by
      unfold datePred
      norm_num
    rw [hpred]
    unfold dateLe
    simp only
    omega
  · rw [if_neg h12]
    have hpred : datePred ⟨cur.year, cur.month + 1, 1⟩ =
        ⟨cur.year, cur.month, daysInMonth cur.year cur.month⟩ := by
      unfold datePred
      simp only
      rw [if_neg (by omega), if_pos (by omega)]
      norm_num
    rw [hpred]
    unfold dateLe
    simp only
    omega

theorem datePred_le_self_nextMonthFirst {cur : Date} (hm : 1 ≤ cur.month) :
    dateLe (datePred (nextMonthFirst cur)) (nextMonthFirst cur) := by
  rcases dateLe_total (datePred (nextMonthFirst cur)) (nextMonthFirst cur) with h | h
  · exact h
  · exact absurd h (not_nextMonthFirst_le_pred hm)

theorem nextMonthFirst_day (d : Date) : (nextMonthFirst d).day = 1 := by
  unfold nextMonthFirst
  split <;> rfl

theorem nextMonthFirst_month_pos (d : Date) : 1 ≤ (nextMonthFirst d).month := by
  unfold nextMonthFirst
  split
  · show (1 : Nat) ≤ 1
    omega
  · show 1 ≤ d.month + 1
    omega

/-- Every bucket in the stream starts at or after the month-first it was
started from. -/
theorem monthsFromAux_starts_ge :
    ∀ (fuel : Nat) (cur stop : Date) (b : Date × Date),
      b ∈ monthsFromAux fuel cur stop → dateLe cur b.1 := by
  intro fuel
  induction fuel with
  | zero =>
    intro cur stop b hb
    simp [monthsFromAux] at hb
  | succ n ih =>
    intro cur stop b hb
    rw [monthsFromAux] at hb
    split at hb
    · rcases List.mem_cons.mp hb with h | h
      · rw [h]
        exact dateLe_refl cur
      · exact dateLe_trans (dateLe_nextMonthFirst cur) (ih _ _ _ h)
    · simp at hb

/-- Every bucket's end is at most the end of the requested period. -/
theorem monthsFromAux_ends_le :
    ∀ (fuel : Nat) (cur stop : Date) (b : Date × Date),
      b ∈ monthsFromAux fuel cur stop → dateLe b.2 stop := by
  intro fuel
  induction fuel with
  | zero =>
    intro cur stop b hb
    simp [monthsFromAux] at hb
  | succ n ih =>
    intro cur stop b hb
    rw [monthsFromAux] at hb
    split at hb
    · rcases List.mem_cons.mp hb with h | h
      · rw [h]
        exact dateMin_le_right _ _
      · exact ih _ _ _ h
    · simp at hb

/-- The first bucket of the stream, when there is one, starts at `cur`. -/
theorem monthsFromAux_head_start :
    ∀ (fuel : Nat) (cur stop : Date) (b : Date × Date),
      b ∈ (monthsFromAux fuel cur stop).head? → b.1 = cur := by
  intro fuel cur stop b hb
  cases fuel with
  | zero => simp [monthsFromAux] at hb
  | succ n =>
    rw [monthsFromAux] at hb
    split at hb
    · simp at hb
      rw [← hb]
    · simp at hb

/-- Consecutive buckets are adjacent: each bucket ends on the day before the
next bucket starts. -/
theorem monthsFromAux_chain :
    ∀ (fuel : Nat) (cur stop : Date), 1 ≤ cur.month →
      List.Chain' (fun b1 b2 => b1.2 = datePred b2.1) (monthsFromAux fuel cur stop) := by
  intro fuel
  induction fuel with
  | zero =>
    intro cur stop hm
    simp [monthsFromAux]
  | succ n ih =>
    intro cur stop hm
    rw [monthsFromAux]
    split
    · rw [List.chain'_cons']
      refine ⟨?_, ih _ _ (nextMonthFirst_month_pos cur)⟩
      intro y hy
      have hy1 : y.1 = nextMonthFirst cur := monthsFromAux_head_start n _ _ y hy
      have hnonempty : dateLe (nextMonthFirst cur) stop := by
        cases n with
        | zero => simp [monthsFromAux] at hy
        | succ k =>
          rw [monthsFromAux] at hy
          split at hy
          · assumption
          · simp at hy
      have hps : dateLe (datePred (nextMonthFirst cur)) stop :=
        dateLe_trans (datePred_le_self_nextMonthFirst hm) hnonempty
      simp only
      rw [hy1, dateMin_eq_left hps]
    · exact List.chain'_nil

/-- Unique coverage: starting the stream at a valid month-first day `cur` with
enough fuel, any valid date `d` with `cur ≤ d ≤ stop` falls in exactly one
emitted bucket. -/
theorem monthsFromAux_countP {stop : Date} (hstop : stop.Valid) :
    ∀ (fuel : Nat) (cur : Date), cur.Valid → cur.day = 1 →
      mIdx stop < mIdx cur + fuel →
      ∀ d : Date, d.Valid → dateLe cur d → dateLe d stop →
      (monthsFromAux fuel cur stop).countP (inBucket d) = 1 := by
  intro fuel
  induction fuel with
  | zero =>
    intro cur hcv hc1 hfuel d hd hcd hds
    have h1 : mIdx cur ≤ mIdx stop :=
      mIdx_mono (dateLe_trans hcd hds) hcv.2.1 hstop.1
    omega
  | succ n ih =>
    intro cur hcv hc1 hfuel d hd hcd hds
    have hg : dateLe cur stop := dateLe_trans hcd hds
    rw [monthsFromAux, if_pos hg, List.countP_cons]
    rcases date_split_at_next hcv.1 hcv.2.1 d hd with hnext | hpred
    · -- d is at or after the next month-first: it lies in the tail, not the head
      have hhead : inBucket d (cur, dateMin (datePred (nextMonthFirst cur)) stop) = false := by
        unfold inBucket
        simp only [Bool.and_eq_false_iff, decide_eq_false_iff_not]
        right
        intro hle
        have h1 : dateLe d (datePred (nextMonthFirst cur)) :=
          dateLe_trans hle (dateMin_le_left _ _)
        exact not_nextMonthFirst_le_pred hcv.1 (dateLe_trans hnext h1)
      rw [hhead]
      simp only [Bool.false_eq_true, if_false]
      have := ih (nextMonthFirst cur) (nextMonthFirst_valid hcv)
        (nextMonthFirst_day cur)
        (by rw [mIdx_nextMonthFirst]; omega) d hd hnext hds
      omega
    · -- d is at or before the last day of cur's month: head counts, tail does not
      have hhead : inBucket d (cur, dateMin (datePred (nextMonthFirst cur)) stop) = true := by
        unfold inBucket
        simp only [Bool.and_eq_true, decide_eq_true_iff]
        exact ⟨hcd, dateLe_dateMin hpred hds⟩
      have htail : (monthsFromAux n (nextMonthFirst cur) stop).countP (inBucket d) = 0 := by
        rw [List.countP_eq_zero]
        intro b hb
        unfold inBucket
        simp only [Bool.and_eq_true, decide_eq_true_iff, not_and]
        intro hbd _
        have hsg : dateLe (nextMonthFirst cur) b.1 :=
          monthsFromAux_starts_ge n _ _ b hb
        exact not_nextMonthFirst_le_pred hcv.1
          (dateLe_trans hsg (dateLe_trans hbd hpred))
      rw [hhead, htail]
      simp

/-- C3: for a valid period with `start ≤ end`, the month buckets of
`months(start..=end)` (i) are adjacent — each bucket ends the day before the
next one starts, (ii) cover the period with no gaps and no overlaps — every
valid date in `[start, end]` lies in exactly one bucket — and (iii) never end
after `end`. -/
theorem months_partition (ps pe : Date) (hps : ps.Valid) (hpe : pe.Valid)
    (hle : dateLe ps pe) :
    List.Chain' (fun b1 b2 => b1.2 = datePred b2.1) (months ps pe) ∧
    (∀ d : Date, d.Valid → dateLe ps d → dateLe d pe →
        (months ps pe).countP (inBucket d) = 1) ∧
    (∀ b ∈ months ps pe, dateLe b.2 pe) := by
  unfold months
  refine ⟨monthsFromAux_chain _ _ _ hps.1, ?_, ?_⟩
  · intro d hd hpd hdp
    have hfv : (firstOfMonth ps).Valid :=
      ⟨hps.1, hps.2.1, le_refl 1, daysInMonth_pos _ _⟩
    have hfle : dateLe (firstOfMonth ps) ps :=
      Or.inr ⟨rfl, Or.inr ⟨rfl, hps.2.2.1⟩⟩
    have hidx : mIdx (firstOfMonth ps) ≤ mIdx pe := by
      have : mIdx (firstOfMonth ps) = mIdx ps := rfl
      rw [this]
      exact mIdx_mono hle hps.2.1 hpe.1
    exact monthsFromAux_countP hpe _ (firstOfMonth ps) hfv rfl (by omega) d hd
      (dateLe_trans hfle hpd) hdp
  · intro b hb
    exact monthsFromAux_ends_le _ _ _ b hb

/-- Witness for `months_partition` on the period 2024-01-15 ..= 2024-03-10. -/
theorem months_partition_witness :
    List.Chain' (fun b1 b2 => b1.2 = datePred b2.1)
        (months ⟨2024, 1, 15⟩ ⟨2024, 3, 10⟩) ∧
    (∀ d : Date, d.Valid → dateLe ⟨2024, 1, 15⟩ d → dateLe d ⟨2024, 3, 10⟩ →
        (months ⟨2024, 1, 15⟩ ⟨2024, 3, 10⟩).countP (inBucket d) = 1) ∧
    (∀ b ∈ months ⟨2024, 1, 15⟩ ⟨2024, 3, 10⟩, dateLe b.2 ⟨2024, 3, 10⟩) :=
  months_partition ⟨2024, 1, 15⟩ ⟨2024, 3, 10⟩ (by decide) (by decide) (by decide)

/-!
## Scrape date range (src/gocardless/src/sync.rs `Cmd::run`)

```
let end_date = Local::now().date_naive();
let mut start_date = end_date - provider_config.history_days();
if start_date.day() > 1 {
    start_date = start_date + Months::new(1);
    start_date = start_date - Days::new(start_date.day0().into());
}
```

`- Days::new(n)` steps the calendar back `n` days; `+ Months::new(1)` moves to
the next month clamping the day-of-month to that month's length (chrono's
`Months` arithmetic); `day0()` is the zero-based day of month (`day - 1`).
-/

/-- `date - Days::new(n)`: step back `n` calendar days. -/
def subDays : Date → Nat → Date
  | d, 0 => d
  | d, n + 1 => subDays (datePred d) n

/-- `date + Months::new(1)`: same day in the next month, clamped to that
month's length. -/
def addOneMonth (d : Date) : Date :=
  if d.month = 12 then ⟨d.year + 1, 1, min d.day (daysInMonth (d.year + 1) 1)⟩
  else ⟨d.year, d.month + 1, min d.day (daysInMonth d.year (d.month + 1))⟩

/-- `ProviderConfig::history_days`: the configured value, defaulting to 90. -/
def history_days (cfg : Option Nat) : Nat :=
  cfg.getD 90

/-- The `(start_date, end_date)` pair computed by `Cmd::run` from today's
local date and the provider's history window. -/
def computeScrapeRange (today : Date) (hist : Nat) : Date × Date :=
  let end_date := today
  let start0 := subDays end_date hist
  let start_date :=
    if 1 < start0.day then
      let s1 := addOneMonth start0
      subDays s1 (s1.day - 1)
    else start0
  (start_date, end_date)

theorem datePred_valid {d : Date} (hd : d.Valid) : (datePred d).Valid := by
  obtain ⟨h1, h2, h3, h4⟩ := hd
  unfold datePred
  split
  · exact ⟨h1, h2, show 1 ≤ d.day - 1 by omega,
      show d.day - 1 ≤ daysInMonth d.year d.month by omega⟩
  · split
    · exact ⟨show 1 ≤ d.month - 1 by omega, show d.month - 1 ≤ 12 by omega,
        show 1 ≤ daysInMonth d.year (d.month - 1) from daysInMonth_pos _ _,
        le_refl _⟩
    · exact ⟨show (1 : Nat) ≤ 12 by omega, show (12 : Nat) ≤ 12 by omega,
        show (1 : Nat) ≤ 31 by omega, by
          show (31 : Nat) ≤ daysInMonth (d.year - 1) 12
          unfold daysInMonth
          norm_num⟩

theorem subDays_valid {d : Date} (hd : d.Valid) (n : Nat) : (subDays d n).Valid := by
  induction n generalizing d with
  | zero => exact hd
  | succ k ih => exact ih (datePred_valid hd)

/-- Stepping back `k < day` days stays inside the month and lands on
`day - k`. -/
theorem subDays_within_month :
    ∀ (k y m day : Nat), k < day → subDays ⟨y, m, day⟩ k = ⟨y, m, day - k⟩ := by
  intro k
  induction k with
  | zero =>
    intro y m day h
    simp [subDays]
  | succ j ih =>
    intro y m day h
    show subDays (datePred ⟨y, m, day⟩) j = _
    have hpred : datePred ⟨y, m, day⟩ = ⟨y, m, day - 1⟩ := by
      unfold datePred
      rw [if_pos (show 1 < (⟨y, m, day⟩ : Date).day by show 1 < day; omega)]
    rw [hpred, ih y m (day - 1) (by omega)]
    have heq : day - 1 - j = day - (j + 1) := by omega
    rw [heq]

/-- Stepping back `day - 1` days from any date lands on the first of its
month. -/
theorem subDays_to_first (y m day : Nat) (h : 1 ≤ day) :
    subDays ⟨y, m, day⟩ (day - 1) = ⟨y, m, 1⟩ := by
  rcases Nat.eq_or_lt_of_le h with h1 | h1
  · rw [← h1]
    simp [subDays]
  · rw [subDays_within_month (day - 1) y m day (by omega)]
    have heq : day - (day - 1) = 1 := by omega
    rw [heq]

set_option maxRecDepth 4000 in
/-- C6: the computed scrape range has `end = today` and
`start = today - history_days`, except that when that start falls after the
first of its month it is advanced to the first day of the following month.
In particular `history_days = 45` on 2024-03-10 yields
`start = 2024-02-01`, `end = 2024-03-10`. -/
theorem scrape_range_correct (today : Date) (hv : today.Valid) (hist : Nat) :
    (computeScrapeRange today hist).2 = today ∧
    ((subDays today hist).day ≤ 1 →
        (computeScrapeRange today hist).1 = subDays today hist) ∧
    (1 < (subDays today hist).day →
        (computeScrapeRange today hist).1 =
          (if (subDays today hist).month = 12
            then ⟨(subDays today hist).year + 1, 1, 1⟩
            else ⟨(subDays today hist).year, (subDays today hist).month + 1, 1⟩)) ∧
    computeScrapeRange ⟨2024, 3, 10⟩ 45 = (⟨2024, 2, 1⟩, ⟨2024, 3, 10⟩) := by
  have hsv : (subDays today hist).Valid := subDays_valid hv hist
  refine ⟨rfl, ?_, ?_, by decide⟩
  · intro h
    unfold computeScrapeRange
    simp only
    rw [if_neg (by omega)]
  · intro h
    unfold computeScrapeRange
    simp only
    rw [if_pos h]
    obtain ⟨hm1, hm2, hd1, hd2⟩ := hsv
    unfold addOneMonth
    split
    · exact subDays_to_first _ _ _ (le_min hd1 (daysInMonth_pos _ _))
    · exact subDays_to_first _ _ _ (le_min hd1 (daysInMonth_pos _ _))

/-- Witness for `scrape_range_correct` at today = 2024-03-10, 45 history days. -/
theorem scrape_range_correct_witness :
    (computeScrapeRange ⟨2024, 3, 10⟩ 45).2 = ⟨2024, 3, 10⟩ ∧
    ((subDays ⟨2024, 3, 10⟩ 45).day ≤ 1 →
        (computeScrapeRange ⟨2024, 3, 10⟩ 45).1 = subDays ⟨2024, 3, 10⟩ 45) ∧
    (1 < (subDays ⟨2024, 3, 10⟩ 45).day →
        (computeScrapeRange ⟨2024, 3, 10⟩ 45).1 =
          (if (subDays ⟨2024, 3, 10⟩ 45).month = 12
            then ⟨(subDays ⟨2024, 3, 10⟩ 45).year + 1, 1, 1⟩
            else ⟨(subDays ⟨2024, 3, 10⟩ 45).year, (subDays ⟨2024, 3, 10⟩ 45).month + 1, 1⟩)) ∧
    computeScrapeRange ⟨2024, 3, 10⟩ 45 = (⟨2024, 2, 1⟩, ⟨2024, 3, 10⟩) :=
  scrape_range_correct ⟨2024, 3, 10⟩ (by decide) 45

/-!
## Per-account output paths and the per-month transaction job
(src/src/sync.rs)

Transaction, balance, … payloads are opaque to the orchestrator; we keep them
as a type parameter.  Paths are modelled as segment lists relative to the
output directory.  Only the fields of `AccountsResult` that `sync.rs` consults
are carried (`account_id`, `account_number.{sort_code, number}` — the rest of
the record is opaque to these claims).
-/

/-- The indexed fields of `client::driver::AccountNumber`. -/
structure AccountNumber where
  number : Option String
  sort_code : Option String

/-- The indexed fields of `client::driver::AccountsResult`. -/
structure AccountsResult where
  account_id : String
  account_number : AccountNumber

/-- `account_dir_name` from src/src/sync.rs:150: `"{sort_code} {number}"` when
both are present, else the account id. -/
def account_dir_name (account : AccountsResult) : String :=
  match account.account_number.sort_code, account.account_number.number with
  | some sort_code, some number => sort_code ++ " " ++ number
  | _, _ => account.account_id

/-- Zero-padded two-digit field of chrono's `%m`. -/
def pad2 (n : Nat) : String :=
  if n < 10 then "0" ++ toString n else toString n

/-- Zero-padded four-digit field of chrono's `%Y` (for the years in scope). -/
def pad4 (n : Nat) : String :=
  if n < 10 then "000" ++ toString n
  else if n < 100 then "00" ++ toString n
  else if n < 1000 then "0" ++ toString n
  else toString n

/-- `month.start().format("%Y-%m.jsons")`. -/
def monthFileName (d : Date) : String :=
  pad4 d.year ++ "-" ++ pad2 d.month ++ ".jsons"

/-- The effect of the `account_tx` job (src/src/sync.rs:211): given the
transactions fetched for the month (upstream order, newest first), either no
write at all (empty month) or one write of the reversed list to
`accounts/{account_dir_name}/{YYYY-MM}.jsons`. -/
def account_tx {α : Type} (account : AccountsResult) (month : Date × Date)
    (results : List α) : Option (List String × List α) :=
  if results.isEmpty then none
  else some (["accounts", account_dir_name account, monthFileName month.1],
    results.reverse)

/-- C7: the per-month transaction job writes nothing exactly when the fetched
list is empty, and otherwise writes the fetched transactions in reversed
(oldest-first) order to the `{YYYY-MM}.jsons` file named after the bucket's
first day in the account's directory. -/
theorem account_tx_correct {α : Type} (account : AccountsResult)
    (month : Date × Date) (results : List α) :
    (account_tx account month results = none ↔ results = []) ∧
    (∀ (path : List String) (written : List α),
        account_tx account month results = some (path, written) →
        written = results.reverse ∧
        path = ["accounts", account_dir_name account, monthFileName month.1]) := by
  constructor
  · unfold account_tx
    cases results <;> simp
  · intro path written hw
    unfold account_tx at hw
    cases results with
    | nil => simp at hw
    | cons x xs =>
      simp at hw
      refine ⟨?_, hw.1.symm⟩
      rw [← hw.2]
      simp

/-- Witness for `account_tx_correct` on a two-element month. -/
theorem account_tx_correct_witness :
    (account_tx ⟨"acc-1", ⟨some "1234", some "11-22-33"⟩⟩
        (⟨2024, 2, 1⟩, ⟨2024, 2, 29⟩) [10, 20] = none ↔ ([10, 20] : List Nat) = []) ∧
    (∀ (path : List String) (written : List Nat),
        account_tx ⟨"acc-1", ⟨some "1234", some "11-22-33"⟩⟩
          (⟨2024, 2, 1⟩, ⟨2024, 2, 29⟩) [10, 20] = some (path, written) →
        written = [10, 20].reverse ∧
        path = ["accounts",
          account_dir_name ⟨"acc-1", ⟨some "1234", some "11-22-33"⟩⟩,
          monthFileName ⟨2024, 2, 1⟩]) :=
  account_tx_correct ⟨"acc-1", ⟨some "1234", some "11-22-33"⟩⟩
    (⟨2024, 2, 1⟩, ⟨2024, 2, 29⟩) [10, 20]

/-- Path written by the `account_standing_orders` job
(src/src/sync.rs:179-192). -/
def account_standing_orders_path (account : AccountsResult) : List String :=
  ["accounts", account_dir_name account, "standing-orders.jsons"]

/-- Path written by the `account_direct_debits` job (src/src/sync.rs:194-208).
The source joins `"standing-orders.jsons"` here as well (line 205), not a
direct-debits file name. -/
def account_direct_debits_path (account : AccountsResult) : List String :=
  ["accounts", account_dir_name account, "standing-orders.jsons"]

/-- C8 (code bug): for the same account, the direct-debits job writes to the
very same path as the standing-orders job, so running both clobbers one
payload with the other, contrary to the spec's (and the function names')
intended distinct stable filenames. -/
theorem direct_debits_clobbers_standing_orders :
    account_direct_debits_path ⟨"acc-123", ⟨none, none⟩⟩ =
      account_standing_orders_path ⟨"acc-123", ⟨none, none⟩⟩ ∧
    account_direct_debits_path ⟨"acc-123", ⟨none, none⟩⟩ =
      ["accounts", "acc-123", "standing-orders.jsons"] := by
  constructor <;> rfl

/-!
## Token refresh (src/gocardless/src/auth.rs and
src/src/client/authentication.rs)

Instants (`DateTime<Utc>`) are modelled as integer seconds; adding a
`chrono::Duration` of `n` seconds is integer addition.  `Duration::try_seconds`
returns `None` when the second count cannot be represented in the
millisecond-precision `Duration` (|seconds| beyond `i64::MAX / 1000`).
-/

namespace GoCardless

/-- `TokenRefreshResp` from src/gocardless/src/auth.rs: the refresh endpoint
returns only a new access string and its lifetime. -/
structure TokenRefreshResp where
  access : String
  access_expires : Int

/-- `Token` from src/gocardless/src/auth.rs. -/
structure Token where
  access : String
  access_expires : Int
  refresh : String
  refresh_expires : Int

/-- `Token::refreshed` (src/gocardless/src/auth.rs:80-87). -/
def Token.refreshed (self : Token) (authed_at : Int) (resp : TokenRefreshResp) :
    Token :=
  { access := resp.access
    access_expires := authed_at + resp.access_expires
    refresh := self.refresh
    refresh_expires := self.refresh_expires }

end GoCardless

/-- `FetchAccessTokenResponse` from src/src/client/authentication.rs; the
TrueLayer token endpoint always returns a (new) refresh token. -/
structure FetchAccessTokenResponse where
  access_token : String
  expires_in : Int
  token_type : String
  refresh_token : String
  scope : Option String

/-- `AuthData` from src/src/client/authentication.rs.  Note it has no refresh
expiry field at all. -/
structure AuthData where
  access_token : String
  expires_at : Int
  token_type : String
  refresh_token : String
  scope : Option String
  redirect_uri : String
  authed_at : Option Int

/-- `chrono::Duration::try_seconds`. -/
def trySeconds (secs : Int) : Option Int :=
  if -9223372036854775 ≤ secs ∧ secs ≤ 9223372036854775 then some secs else none

/-- `AuthData::update_from_response` (src/src/client/authentication.rs:270-296):
every response field replaces the stored one, `redirect_uri` is the explicit
argument, and `..self.clone()` fills only the remaining `authed_at`. -/
def AuthData.update_from_response (self : AuthData)
    (response : FetchAccessTokenResponse) (fetched_at : Int)
    (redirect_uri : String) : Option AuthData :=
  match trySeconds response.expires_in with
  | none => none
  | some secs =>
    some { access_token := response.access_token
           token_type := response.token_type
           scope := response.scope
           expires_at := fetched_at + secs
           refresh_token := response.refresh_token
           redirect_uri := redirect_uri
           authed_at := self.authed_at }

/-- C4 counterexample: the TrueLayer refresh path does not preserve the stored
refresh string — `update_from_response` takes `refresh_token` from the refresh
response, so starting from a token whose refresh string is "r1" and a response
carrying "r2", the stored refresh string afterwards is "r2", not "r1". -/
theorem update_from_response_replaces_refresh :
    (AuthData.update_from_response
        ⟨"a1", 100, "Bearer", "r1", none, "http://uri", none⟩
        ⟨"a2", 3600, "Bearer", "r2", none⟩ 200 "http://uri").map
        AuthData.refresh_token = some "r2" ∧
    ¬ ((AuthData.update_from_response
        ⟨"a1", 100, "Bearer", "r1", none, "http://uri", none⟩
        ⟨"a2", 3600, "Bearer", "r2", none⟩ 200 "http://uri").map
        AuthData.refresh_token = some "r1") := by
  constructor
  · rfl
  · intro h
    simp [AuthData.update_from_response, trySeconds] at h

/-!
## Token stores (src/src/client/authentication.rs `write_auth_data`,
src/gocardless/src/auth.rs `store_token`)

We record the sequence of filesystem operations each store performs.  Paths
are segment lists; `["."]` is the process's current working directory, which
is where `NamedTempFile::new_in(".")` creates its temporary file.
-/

/-- One filesystem operation performed by a token store. -/
inductive FsOp where
  | createTempIn (dir : List String)
  | flushTemp
  | persistTempTo (path : List String)
  | writeDirect (path : List String)
deriving DecidableEq

/-- Parent directory of a path (the directory the target file lives in). -/
def parentDir (p : List String) : List String :=
  p.dropLast

/-- Operations of `Authenticator::write_auth_data`
(src/src/client/authentication.rs:225-239): temp file in `"."`
(`NamedTempFile::new_in(".")`), serialize, flush, `persist` (rename) over the
token path. -/
def write_auth_data_ops (token_path : List String) : List FsOp :=
  [FsOp.createTempIn ["."], FsOp.flushTemp, FsOp.persistTempTo token_path]

/-- Operations of gocardless `store_token` (src/gocardless/src/auth.rs:90-96):
a single direct `tokio::fs::write` of the serialized token to the path. -/
def store_token_ops (path : List String) : List FsOp :=
  [FsOp.writeDirect path]

/-- The operation sequence the spec's Token Store prescribes (§4.3: "the same
temp-file-plus-rename sequence as the Atomic Store, with the temp file placed
in the same directory as the target").  This definition follows the spec's
words, for comparison against the two source-derived stores. -/
def specStoreOps (path : List String) : List FsOp :=
  [FsOp.createTempIn (parentDir path), FsOp.flushTemp, FsOp.persistTempTo path]

/-- C5 counterexample: for the target `tokens/auth.json`, `write_auth_data`
creates its temp file in `"."` rather than in `tokens/`, and gocardless's
`store_token` writes the file directly with no temp file or rename at all, so
neither store matches the claimed same-directory temp-plus-rename sequence. -/
theorem token_store_not_spec_atomic :
    write_auth_data_ops ["tokens", "auth.json"] ≠
      specStoreOps ["tokens", "auth.json"] ∧
    store_token_ops ["tokens", "auth.json"] ≠
      specStoreOps ["tokens", "auth.json"] := by
  constructor <;> decide

/-- C5 (amended): `write_auth_data` does follow a temp-plus-flush-plus-rename
sequence, but its temp file lives in the current working directory, so it
matches the spec's same-directory atomic store exactly when the token file's
directory is the current directory; gocardless's `store_token` is a plain
direct write with no temporary file. -/
theorem token_store_ops_characterization (path : List String) :
    (write_auth_data_ops path = specStoreOps path ↔ parentDir path = ["."]) ∧
    store_token_ops path ≠ specStoreOps path ∧
    store_token_ops path = [FsOp.writeDirect path] := by
  refine ⟨?_, ?_, rfl⟩
  · constructor
    · intro h
      unfold write_auth_data_ops specStoreOps at h
      rw [List.cons_eq_cons] at h
      have := h.1
      rw [FsOp.createTempIn.injEq] at this
      exact this.symm
    · intro h
      unfold write_auth_data_ops specStoreOps
      rw [h]
  · intro h
    unfold store_token_ops specStoreOps at h
    cases h

/-- Witness for `token_store_ops_characterization` at a concrete path. -/
theorem token_store_ops_characterization_witness :
    (write_auth_data_ops ["tokens", "token.json"] =
        specStoreOps ["tokens", "token.json"] ↔
      parentDir ["tokens", "token.json"] = ["."]) ∧
    store_token_ops ["tokens", "token.json"] ≠
      specStoreOps ["tokens", "token.json"] ∧
    store_token_ops ["tokens", "token.json"] =
      [FsOp.writeDirect ["tokens", "token.json"]] :=
  token_store_ops_characterization ["tokens", "token.json"]

/-!
## Concurrent `access_token` (src/src/client/authentication.rs:129-154)

`Authenticator::access_token` takes the `tokio::sync::Mutex` around the cached
token and holds the guard across the disk read, the refresh network call and
the persist — there is no release point before the function returns.  We model
two concurrent callers A and B as a small interleaved transition system: each
caller first acquires the lock (possible only while it is free) and then runs
the whole locked body as one transition (faithful because no other task can
observe or modify the authenticator state while the guard is held).  The body
is the source's logic: use the cached token if unexpired, otherwise the disk
token if unexpired, otherwise send one refresh request upstream, persist and
cache the result.  `refreshCount` counts refresh requests sent upstream.
-/

/-- Authenticator state: the in-memory cache, the token file contents, and the
number of refresh requests that have gone upstream. -/
structure AuthSt where
  cache : Option AuthData
  disk : AuthData
  refreshCount : Nat

/-- `AuthData::is_expired` (src/src/client/authentication.rs:298). -/
def is_expired (d : AuthData) (at_ : Int) : Bool :=
  decide (d.expires_at ≤ at_)

/-- The fall-through part of `access_token` after the cache check: read the
token file; if unexpired cache and return it, else refresh (one upstream
request), persist and cache.  A failed refresh returns `none` (the error
path). -/
def read_and_refresh : AuthSt → Int → FetchAccessTokenResponse → AuthSt × Option String
  | ⟨c, dk, n⟩, now, resp =>
    if is_expired dk now = false then
      (⟨some dk, dk, n⟩, some dk.access_token)
    else
      match AuthData.update_from_response dk resp now dk.redirect_uri with
      | some d2 => (⟨some d2, d2, n + 1⟩, some d2.access_token)
      | none => (⟨c, dk, n + 1⟩, none)

/-- The whole body of `access_token` executed under the lock: cached token if
present and unexpired, else `read_and_refresh`. -/
def access_token_body : AuthSt → Int → FetchAccessTokenResponse → AuthSt × Option String
  | ⟨some data, dk, n⟩, now, resp =>
    if is_expired data now = false then
      (⟨some data, dk, n⟩, some data.access_token)
    else read_and_refresh ⟨some data, dk, n⟩ now resp
  | ⟨none, dk, n⟩, now, resp => read_and_refresh ⟨none, dk, n⟩ now resp

/-- Where one caller of `access_token` stands. -/
inductive CallerPhase where
  | ready
  | locked
  | finished

/-- Combined state of two concurrent `access_token` callers sharing one
authenticator. -/
structure TwoCallers where
  pcA : CallerPhase
  pcB : CallerPhase
  lockHeld : Bool
  st : AuthSt
  resA : Option (Option String)
  resB : Option (Option String)

/-- Interleaved execution: a caller may acquire the free lock, and a caller
holding the lock runs the whole body (at its own clock reading and with its
own upstream refresh response) and releases. -/
inductive CStep (tA tB : Int) (respA respB : FetchAccessTokenResponse) :
    TwoCallers → TwoCallers → Prop
  | lockA (s : TwoCallers) : s.pcA = CallerPhase.ready → s.lockHeld = false →
      CStep tA tB respA respB s
        ⟨CallerPhase.locked, s.pcB, true, s.st, s.resA, s.resB⟩
  | runA (s : TwoCallers) : s.pcA = CallerPhase.locked →
      CStep tA tB respA respB s
        ⟨CallerPhase.finished, s.pcB, false, (access_token_body s.st tA respA).1,
         some (access_token_body s.st tA respA).2, s.resB⟩
  | lockB (s : TwoCallers) : s.pcB = CallerPhase.ready → s.lockHeld = false →
      CStep tA tB respA respB s
        ⟨s.pcA, CallerPhase.locked, true, s.st, s.resA, s.resB⟩
  | runB (s : TwoCallers) : s.pcB = CallerPhase.locked →
      CStep tA tB respA respB s
        ⟨s.pcA, CallerPhase.finished, false, (access_token_body s.st tB respB).1,
         s.resA, some (access_token_body s.st tB respB).2⟩

/-- The token `update_from_response` builds on the success path. -/
def refreshedData (a : AuthData) (r : FetchAccessTokenResponse) (t : Int) : AuthData :=
  ⟨r.access_token, t + r.expires_in, r.token_type, r.refresh_token, r.scope,
   a.redirect_uri, a.authed_at⟩

theorem update_from_response_eq {a : AuthData} {r : FetchAccessTokenResponse}
    {t : Int} {uri : String}
    (hts : trySeconds r.expires_in = some r.expires_in) :
    a.update_from_response r t uri =
      some ⟨r.access_token, t + r.expires_in, r.token_type, r.refresh_token,
        r.scope, uri, a.authed_at⟩ := by
  unfold AuthData.update_from_response
  rw [hts]

theorem access_token_body_first_run {dk : AuthData} {n : Nat} {t : Int}
    {r : FetchAccessTokenResponse}
    (hexp : is_expired dk t = true) (hts : trySeconds r.expires_in = some r.expires_in) :
    access_token_body ⟨none, dk, n⟩ t r =
      (⟨some (refreshedData dk r t), refreshedData dk r t, n + 1⟩,
       some (refreshedData dk r t).access_token) := by
  show read_and_refresh ⟨none, dk, n⟩ t r = _
  unfold read_and_refresh
  simp only [hexp, Bool.true_eq_false, if_false]
  rw [update_from_response_eq hts]
  rfl

theorem access_token_body_cache_hit {d dk : AuthData} {n : Nat} {t : Int}
    {r : FetchAccessTokenResponse} (hfresh : is_expired d t = false) :
    access_token_body ⟨some d, dk, n⟩ t r = (⟨some d, dk, n⟩, some d.access_token) := by
  show (if is_expired d t = false then ((⟨some d, dk, n⟩ : AuthSt), some d.access_token)
      else read_and_refresh ⟨some d, dk, n⟩ t r) = ((⟨some d, dk, n⟩ : AuthSt), some d.access_token)
  rw [hfresh, if_pos rfl]

/-- Initial combined state: no caller started, lock free, empty cache, the
persisted token on disk, no refresh sent yet. -/
def sInit (disk0 : AuthData) : TwoCallers :=
  ⟨CallerPhase.ready, CallerPhase.ready, false, ⟨none, disk0, 0⟩, none, none⟩

def sALocked (disk0 : AuthData) : TwoCallers :=
  ⟨CallerPhase.locked, CallerPhase.ready, true, ⟨none, disk0, 0⟩, none, none⟩

def sBLocked (disk0 : AuthData) : TwoCallers :=
  ⟨CallerPhase.ready, CallerPhase.locked, true, ⟨none, disk0, 0⟩, none, none⟩

/-- Authenticator state after the first completed call refreshed with clock
`t` and response `r`. -/
def afterRefresh (disk0 : AuthData) (r : FetchAccessTokenResponse) (t : Int) : AuthSt :=
  ⟨some (refreshedData disk0 r t), refreshedData disk0 r t, 1⟩

def tokenOf (disk0 : AuthData) (r : FetchAccessTokenResponse) (t : Int) :
    Option (Option String) :=
  some (some (refreshedData disk0 r t).access_token)

def sADone (disk0 : AuthData) (tA : Int) (respA : FetchAccessTokenResponse) : TwoCallers :=
  ⟨CallerPhase.finished, CallerPhase.ready, false, afterRefresh disk0 respA tA,
   tokenOf disk0 respA tA, none⟩

def sBDone (disk0 : AuthData) (tB : Int) (respB : FetchAccessTokenResponse) : TwoCallers :=
  ⟨CallerPhase.ready, CallerPhase.finished, false, afterRefresh disk0 respB tB,
   none, tokenOf disk0 respB tB⟩

def sADoneBLocked (disk0 : AuthData) (tA : Int) (respA : FetchAccessTokenResponse) :
    TwoCallers :=
  ⟨CallerPhase.finished, CallerPhase.locked, true, afterRefresh disk0 respA tA,
   tokenOf disk0 respA tA, none⟩

def sBDoneALocked (disk0 : AuthData) (tB : Int) (respB : FetchAccessTokenResponse) :
    TwoCallers :=
  ⟨CallerPhase.locked, CallerPhase.finished, true, afterRefresh disk0 respB tB,
   none, tokenOf disk0 respB tB⟩

def sBothAFirst (disk0 : AuthData) (tA : Int) (respA : FetchAccessTokenResponse) :
    TwoCallers :=
  ⟨CallerPhase.finished, CallerPhase.finished, false, afterRefresh disk0 respA tA,
   tokenOf disk0 respA tA, tokenOf disk0 respA tA⟩

def sBothBFirst (disk0 : AuthData) (tB : Int) (respB : FetchAccessTokenResponse) :
    TwoCallers :=
  ⟨CallerPhase.finished, CallerPhase.finished, false, afterRefresh disk0 respB tB,
   tokenOf disk0 respB tB, tokenOf disk0 respB tB⟩

/-- Invariant: the nine combined states reachable across a single expiry
boundary. -/
def AccessTokenInv (disk0 : AuthData) (tA tB : Int)
    (respA respB : FetchAccessTokenResponse) (s : TwoCallers) : Prop :=
  s = sInit disk0 ∨ s = sALocked disk0 ∨ s = sBLocked disk0 ∨
  s = sADone disk0 tA respA ∨ s = sBDone disk0 tB respB ∨
  s = sADoneBLocked disk0 tA respA ∨ s = sBDoneALocked disk0 tB respB ∨
  s = sBothAFirst disk0 tA respA ∨ s = sBothBFirst disk0 tB respB

theorem accessTokenInv_preserved {disk0 : AuthData} {tA tB : Int}
    {respA respB : FetchAccessTokenResponse}
    (hexpA : is_expired disk0 tA = true) (hexpB : is_expired disk0 tB = true)
    (htsA : trySeconds respA.expires_in = some respA.expires_in)
    (htsB : trySeconds respB.expires_in = some respB.expires_in)
    (hfreshA : tB < tA + respA.expires_in) (hfreshB : tA < tB + respB.expires_in)
    {s s' : TwoCallers}
    (hInv : AccessTokenInv disk0 tA tB respA respB s)
    (hstep : CStep tA tB respA respB s s') :
    AccessTokenInv disk0 tA tB respA respB s' := by
  have hfA : is_expired (refreshedData disk0 respA tA) tB = false := by
    simp only [is_expired, refreshedData, decide_eq_false_iff_not, not_le]
    omega
  have hfB : is_expired (refreshedData disk0 respB tB) tA = false := by
    simp only [is_expired, refreshedData, decide_eq_false_iff_not, not_le]
    omega
  unfold AccessTokenInv at hInv ⊢
  rcases hInv with rfl | rfl | rfl | rfl | rfl | rfl | rfl | rfl | rfl
  · -- from sInit
    cases hstep with
    | lockA h1 h2 => exact Or.inr (Or.inl rfl)
    | runA h1 => simp [sInit] at h1
    | lockB h1 h2 => exact Or.inr (Or.inr (Or.inl rfl))
    | runB h1 => simp [sInit] at h1
  · -- from sALocked
    cases hstep with
    | lockA h1 h2 => simp [sALocked] at h1
    | runA h1 =>
      refine Or.inr (Or.inr (Or.inr (Or.inl ?_)))
      simp only [sALocked]
      rw [access_token_body_first_run hexpA htsA]
      rfl
    | lockB h1 h2 => simp [sALocked] at h2
    | runB h1 => simp [sALocked] at h1
  · -- from sBLocked
    cases hstep with
    | lockA h1 h2 => simp [sBLocked] at h2
    | runA h1 => simp [sBLocked] at h1
    | lockB h1 h2 => simp [sBLocked] at h1
    | runB h1 =>
      refine Or.inr (Or.inr (Or.inr (Or.inr (Or.inl ?_))))
      simp only [sBLocked]
      rw [access_token_body_first_run hexpB htsB]
      rfl
  · -- from sADone
    cases hstep with
    | lockA h1 h2 => simp [sADone] at h1
    | runA h1 => simp [sADone] at h1
    | lockB h1 h2 =>
      exact Or.inr (Or.inr (Or.inr (Or.inr (Or.inr (Or.inl rfl)))))
    | runB h1 => simp [sADone] at h1
  · -- from sBDone
    cases hstep with
    | lockA h1 h2 =>
      exact Or.inr (Or.inr (Or.inr (Or.inr (Or.inr (Or.inr (Or.inl rfl))))))
    | runA h1 => simp [sBDone] at h1
    | lockB h1 h2 => simp [sBDone] at h1
    | runB h1 => simp [sBDone] at h1
  · -- from sADoneBLocked
    cases hstep with
    | lockA h1 h2 => simp [sADoneBLocked] at h1
    | runA h1 => simp [sADoneBLocked] at h1
    | lockB h1 h2 => simp [sADoneBLocked] at h1
    | runB h1 =>
      refine Or.inr (Or.inr (Or.inr (Or.inr (Or.inr (Or.inr (Or.inr (Or.inl ?_)))))))
      simp only [sADoneBLocked, afterRefresh]
      rw [access_token_body_cache_hit hfA]
      rfl
  · -- from sBDoneALocked
    cases hstep with
    | lockA h1 h2 => simp [sBDoneALocked] at h2
    | runA h1 =>
      refine Or.inr (Or.inr (Or.inr (Or.inr (Or.inr (Or.inr (Or.inr (Or.inr ?_)))))))
      simp only [sBDoneALocked, afterRefresh]
      rw [access_token_body_cache_hit hfB]
      rfl
    | lockB h1 h2 => simp [sBDoneALocked] at h1
    | runB h1 => simp [sBDoneALocked] at h1
  · -- from sBothAFirst
    cases hstep with
    | lockA h1 h2 => simp [sBothAFirst] at h1
    | runA h1 => simp [sBothAFirst] at h1
    | lockB h1 h2 => simp [sBothAFirst] at h1
    | runB h1 => simp [sBothAFirst] at h1
  · -- from sBothBFirst
    cases hstep with
    | lockA h1 h2 => simp [sBothBFirst] at h1
    | runA h1 => simp [sBothBFirst] at h1
    | lockB h1 h2 => simp [sBothBFirst] at h1
    | runB h1 => simp [sBothBFirst] at h1

theorem accessTokenInv_reachable {disk0 : AuthData} {tA tB : Int}
    {respA respB : FetchAccessTokenResponse}
    (hexpA : is_expired disk0 tA = true) (hexpB : is_expired disk0 tB = true)
    (htsA : trySeconds respA.expires_in = some respA.expires_in)
    (htsB : trySeconds respB.expires_in = some respB.expires_in)
    (hfreshA : tB < tA + respA.expires_in) (hfreshB : tA < tB + respB.expires_in)
    {s : TwoCallers}
    (hreach : Relation.ReflTransGen (CStep tA tB respA respB) (sInit disk0) s) :
    AccessTokenInv disk0 tA tB respA respB s := by
  induction hreach with
  | refl => exact Or.inl rfl
  | tail _ hstep ih =>
    exact accessTokenInv_preserved hexpA hexpB htsA htsB hfreshA hfreshB ih hstep

/-- C9: two `access_token` calls racing across an access-token expiry
boundary (both clock readings past the stored expiry, each hypothetical
refresh response outliving the other call) send exactly one refresh request
upstream, and both callers return the same, single refreshed access token:
the refresh and persist happen under the mutual-exclusion lock, so the second
caller hits the cache instead of issuing its own refresh. -/
theorem access_token_single_refresh
    (disk0 : AuthData) (tA tB : Int) (respA respB : FetchAccessTokenResponse)
    (hexpA : is_expired disk0 tA = true) (hexpB : is_expired disk0 tB = true)
    (htsA : trySeconds respA.expires_in = some respA.expires_in)
    (htsB : trySeconds respB.expires_in = some respB.expires_in)
    (hfreshA : tB < tA + respA.expires_in) (hfreshB : tA < tB + respB.expires_in)
    (s : TwoCallers)
    (hreach : Relation.ReflTransGen (CStep tA tB respA respB) (sInit disk0) s)
    (hA : s.pcA = CallerPhase.finished) (hB : s.pcB = CallerPhase.finished) :
    s.st.refreshCount = 1 ∧
    s.resA = s.resB ∧
    (s.resA = some (some respA.access_token) ∨
     s.resA = some (some respB.access_token)) := by
  have hInv : AccessTokenInv disk0 tA tB respA respB s :=
    accessTokenInv_reachable hexpA hexpB htsA htsB hfreshA hfreshB hreach
  rcases hInv with rfl | rfl | rfl | rfl | rfl | rfl | rfl | rfl | rfl
  · simp [sInit] at hA
  · simp [sALocked] at hA
  · simp [sBLocked] at hA
  · simp [sADone] at hB
  · simp [sBDone] at hA
  · simp [sADoneBLocked] at hB
  · simp [sBDoneALocked] at hA
  · exact ⟨rfl, rfl, Or.inl rfl⟩
  · exact ⟨rfl, rfl, Or.inr rfl⟩

/-- Witness for `access_token_single_refresh`: a concrete interleaving where A
acquires, refreshes, then B acquires and hits the cache. -/
theorem access_token_single_refresh_witness :
    (sBothAFirst ⟨"a0", 100, "Bearer", "r1", none, "uri", none⟩ 200
        ⟨"a1", 3600, "Bearer", "r2", none⟩).st.refreshCount = 1 ∧
    (sBothAFirst ⟨"a0", 100, "Bearer", "r1", none, "uri", none⟩ 200
        ⟨"a1", 3600, "Bearer", "r2", none⟩).resA =
      (sBothAFirst ⟨"a0", 100, "Bearer", "r1", none, "uri", none⟩ 200
        ⟨"a1", 3600, "Bearer", "r2", none⟩).resB ∧
    ((sBothAFirst ⟨"a0", 100, "Bearer", "r1", none, "uri", none⟩ 200
        ⟨"a1", 3600, "Bearer", "r2", none⟩).resA = some (some "a1") ∨
     (sBothAFirst ⟨"a0", 100, "Bearer", "r1", none, "uri", none⟩ 200
        ⟨"a1", 3600, "Bearer", "r2", none⟩).resA = some (some "a2")) := by
  have hreach : Relation.ReflTransGen
      (CStep 200 300 ⟨"a1", 3600, "Bearer", "r2", none⟩ ⟨"a2", 3600, "Bearer", "r3", none⟩)
      (sInit ⟨"a0", 100, "Bearer", "r1", none, "uri", none⟩)
      (sBothAFirst ⟨"a0", 100, "Bearer", "r1", none, "uri", none⟩ 200
        ⟨"a1", 3600, "Bearer", "r2", none⟩) :=
    Relation.ReflTransGen.tail (Relation.ReflTransGen.tail (Relation.ReflTransGen.tail
      (Relation.ReflTransGen.single
        (CStep.lockA (sInit ⟨"a0", 100, "Bearer", "r1", none, "uri", none⟩) rfl rfl))
      (CStep.runA _ rfl)) (CStep.lockB _ rfl rfl)) (CStep.runB _ rfl)
  exact access_token_single_refresh
    ⟨"a0", 100, "Bearer", "r1", none, "uri", none⟩ 200 300
    ⟨"a1", 3600, "Bearer", "r2", none⟩ ⟨"a2", 3600, "Bearer", "r3", none⟩
    (by decide) (by decide) (by decide) (by decide) (by decide) (by decide)
    _ hreach rfl rfl

/-- gocardless `load_token` (src/gocardless/src/auth.rs:99-123) on a present
token file, with the file modelled as the stored record (the serde JSON
roundtrip is the identity on the record): when the access token has expired,
refresh it, persist the refreshed token via `store_token`, and return it;
otherwise return the stored token unchanged.  The result pair is (token file
contents afterwards, token returned to the caller); `refresh_token`'s internal
clock reading is identified with the load's. -/
def GoCardless.load_token (file : GoCardless.Token) (now : Int)
    (resp : GoCardless.TokenRefreshResp) : GoCardless.Token × GoCardless.Token :=
  if file.access_expires ≤ now then
    (file.refreshed now resp, file.refreshed now resp)
  else (file, file)

/-- C4 (amended): after a successful refresh, the gocardless `Token` keeps its
refresh string and refresh expiry and takes the access string and access
expiry from the refresh response; the TrueLayer `AuthData` takes the access
token, expiry, token type, scope and also the refresh token from the refresh
response, preserving only `authed_at` (with `redirect_uri` passed through
explicitly).  The record so built is exactly what is persisted and cached: the
gocardless load-with-refresh stores and returns precisely `t.refreshed`, a
subsequent load before the new expiry observes exactly that stored record, and
the TrueLayer refresh path writes the `update_from_response` record to the
token file and the cache and returns its access token. -/
theorem token_refresh_semantics (t : GoCardless.Token) (authedAt : Int)
    (resp : GoCardless.TokenRefreshResp) :
    (t.refreshed authedAt resp).refresh = t.refresh ∧
    (t.refreshed authedAt resp).refresh_expires = t.refresh_expires ∧
    (t.refreshed authedAt resp).access = resp.access ∧
    (t.refreshed authedAt resp).access_expires = authedAt + resp.access_expires ∧
    (∀ (a : AuthData) (r : FetchAccessTokenResponse) (fetchedAt : Int)
        (uri : String) (d : AuthData),
        a.update_from_response r fetchedAt uri = some d →
        d.refresh_token = r.refresh_token ∧
        d.access_token = r.access_token ∧
        d.expires_at = fetchedAt + r.expires_in ∧
        d.token_type = r.token_type ∧
        d.scope = r.scope ∧
        d.redirect_uri = uri ∧
        d.authed_at = a.authed_at) ∧
    (t.access_expires ≤ authedAt →
        GoCardless.load_token t authedAt resp =
          (t.refreshed authedAt resp, t.refreshed authedAt resp)) ∧
    (∀ (now2 : Int) (resp2 : GoCardless.TokenRefreshResp),
        t.access_expires ≤ authedAt → now2 < authedAt + resp.access_expires →
        GoCardless.load_token (GoCardless.load_token t authedAt resp).1 now2 resp2 =
          (t.refreshed authedAt resp, t.refreshed authedAt resp)) ∧
    (∀ (cache : Option AuthData) (dk : AuthData) (n : Nat) (now : Int)
        (r : FetchAccessTokenResponse) (d2 : AuthData),
        is_expired dk now = true →
        dk.update_from_response r now dk.redirect_uri = some d2 →
        read_and_refresh ⟨cache, dk, n⟩ now r =
          (⟨some d2, d2, n + 1⟩, some d2.access_token)) := by
  refine ⟨rfl, rfl, rfl, rfl, ?_, ?_, ?_, ?_⟩
  · intro a r fetchedAt uri d hd
    unfold AuthData.update_from_response at hd
    unfold trySeconds at hd
    split at hd
    case h_1 x heq => cases hd
    case h_2 x s heq =>
      rw [Option.some_inj] at hd
      have hs : s = r.expires_in := by
        by_cases hb : -9223372036854775 ≤ r.expires_in ∧ r.expires_in ≤ 9223372036854775
        · rw [if_pos hb] at heq
          exact (Option.some_inj.mp heq).symm
        · rw [if_neg hb] at heq
          cases heq
      rw [← hd, hs]
      exact ⟨rfl, rfl, rfl, rfl, rfl, rfl, rfl⟩
  · intro h
    unfold GoCardless.load_token
    rw [if_pos h]
  · intro now2 resp2 h hlt
    have hfst : (GoCardless.load_token t authedAt resp).1 = t.refreshed authedAt resp := by
      unfold GoCardless.load_token
      rw [if_pos h]
    rw [hfst]
    unfold GoCardless.load_token
    rw [if_neg (show ¬ ((t.refreshed authedAt resp).access_expires ≤ now2) by
      show ¬ (authedAt + resp.access_expires ≤ now2)
      omega)]
  · intro cache dk n now r d2 hexp hupd
    unfold read_and_refresh
    simp only [hexp, Bool.true_eq_false, if_false]
    rw [hupd]

/-- Witness for `token_refresh_semantics` at a concrete token and response. -/
theorem token_refresh_semantics_witness :
    ((⟨"a1", 100, "r1", 5000⟩ : GoCardless.Token).refreshed 200
        ⟨"a2", 3600⟩).refresh = (⟨"a1", 100, "r1", 5000⟩ : GoCardless.Token).refresh ∧
    ((⟨"a1", 100, "r1", 5000⟩ : GoCardless.Token).refreshed 200
        ⟨"a2", 3600⟩).refresh_expires =
      (⟨"a1", 100, "r1", 5000⟩ : GoCardless.Token).refresh_expires ∧
    ((⟨"a1", 100, "r1", 5000⟩ : GoCardless.Token).refreshed 200
        ⟨"a2", 3600⟩).access = (⟨"a2", 3600⟩ : GoCardless.TokenRefreshResp).access ∧
    ((⟨"a1", 100, "r1", 5000⟩ : GoCardless.Token).refreshed 200
        ⟨"a2", 3600⟩).access_expires =
      200 + (⟨"a2", 3600⟩ : GoCardless.TokenRefreshResp).access_expires ∧
    (∀ (a : AuthData) (r : FetchAccessTokenResponse) (fetchedAt : Int)
        (uri : String) (d : AuthData),
        a.update_from_response r fetchedAt uri = some d →
        d.refresh_token = r.refresh_token ∧
        d.access_token = r.access_token ∧
        d.expires_at = fetchedAt + r.expires_in ∧
        d.token_type = r.token_type ∧
        d.scope = r.scope ∧
        d.redirect_uri = uri ∧
        d.authed_at = a.authed_at) ∧
    ((⟨"a1", 100, "r1", 5000⟩ : GoCardless.Token).access_expires ≤ 200 →
        GoCardless.load_token ⟨"a1", 100, "r1", 5000⟩ 200 ⟨"a2", 3600⟩ =
          ((⟨"a1", 100, "r1", 5000⟩ : GoCardless.Token).refreshed 200 ⟨"a2", 3600⟩,
           (⟨"a1", 100, "r1", 5000⟩ : GoCardless.Token).refreshed 200 ⟨"a2", 3600⟩)) ∧
    (∀ (now2 : Int) (resp2 : GoCardless.TokenRefreshResp),
        (⟨"a1", 100, "r1", 5000⟩ : GoCardless.Token).access_expires ≤ 200 →
        now2 < 200 + (⟨"a2", 3600⟩ : GoCardless.TokenRefreshResp).access_expires →
        GoCardless.load_token
            (GoCardless.load_token ⟨"a1", 100, "r1", 5000⟩ 200 ⟨"a2", 3600⟩).1 now2 resp2 =
          ((⟨"a1", 100, "r1", 5000⟩ : GoCardless.Token).refreshed 200 ⟨"a2", 3600⟩,
           (⟨"a1", 100, "r1", 5000⟩ : GoCardless.Token).refreshed 200 ⟨"a2", 3600⟩)) ∧
    (∀ (cache : Option AuthData) (dk : AuthData) (n : Nat) (now : Int)
        (r : FetchAccessTokenResponse) (d2 : AuthData),
        is_expired dk now = true →
        dk.update_from_response r now dk.redirect_uri = some d2 →
        read_and_refresh ⟨cache, dk, n⟩ now r =
          (⟨some d2, d2, n + 1⟩, some d2.access_token)) :=
  token_refresh_semantics ⟨"a1", 100, "r1", 5000⟩ 200 ⟨"a2", 3600⟩

end TlScraper
